import Mathlib

/-!
Shallow embedding of the WebSocket core of wreq-js (src/rust/src/lib.rs,
src/rust/src/websocket.rs, src/rust/src/client.rs): the handle allocator and
connection registry, the event pump that translates transport frames into
internal events, and the backpressure-bounded dispatcher that feeds events to
the single-threaded consumer context.

Modelling conventions:
  * machine integers (u64) are Nat with explicit reduction modulo 2^64 at the
    single point where the source increments a u64 counter;
  * the Rust HashMap/IndexMap registries are association lists with the
    corresponding insert/lookup/remove semantics;
  * the asynchronous pump and dispatcher tasks are pure functions from the
    finite list of inputs they drain (the frame stream, resp. the event queue)
    to the ordered list of outputs they produce (queued events, resp. consumer
    deliveries); channel sends to a live peer are modelled as succeeding, and
    the consumer callbacks (onMessage/onClose/onError) are modelled as
    registered;
  * the external wreq transport collaborator is a parameter (an oracle record
    of the fallible construction stages, and an abstract deserializer for the
    Emulation profile enum).
-/

namespace WreqJs

/-- Internal event set produced by the Event Pump and consumed by the
Dispatcher (`enum WsEvent` in src/rust/src/lib.rs). Binary payloads are
byte lists. -/
inductive WsEvent
  | text (s : String)
  | binary (b : List Nat)
  | close
  | error (msg : String)
deriving DecidableEq, Repr

/-- Payload of a send operation (`enum SendData` in src/rust/src/lib.rs). -/
inductive SendData
  | text (s : String)
  | binary (b : List Nat)
deriving DecidableEq, Repr

/-- A notification handed to the consumer context: an onMessage invocation
with a text or binary payload, an onError invocation, or an onClose
invocation. -/
inductive Delivery
  | message (d : SendData)
  | error (msg : String)
  | close
deriving DecidableEq, Repr

/-- `true` exactly for onMessage deliveries (Text/Binary events). -/
def Delivery.isMessage : Delivery → Bool
  | .message _ => true
  | _ => false

/-- Queue capacity of the pump-to-dispatcher event channel and size of the
dispatcher's credit semaphore (`const WS_EVENT_BUFFER: usize = 64`). -/
def WS_EVENT_BUFFER : Nat := 64

/-- The dispatcher loop of `websocket_connect` (src/rust/src/lib.rs lines
433-511): drains the event queue in order with a `close_emitted` flag.
For each delivery the Bool records whether a credit permit was acquired for
it: Text/Binary deliveries acquire a permit from the `permits_consumer`
semaphore before the `channel.send`; Error and Close deliveries are sent
without acquiring a permit. A Close event is delivered only when
`close_emitted` is still false; when the queue ends without a Close having
been delivered, one Close is synthesized. -/
def dispatchLoop : List WsEvent → Bool → List (Delivery × Bool)
  | [], closeEmitted => if closeEmitted then [] else [(.close, false)]
  | .text s :: rest, closeEmitted =>
      (.message (.text s), true) :: dispatchLoop rest closeEmitted
  | .binary b :: rest, closeEmitted =>
      (.message (.binary b), true) :: dispatchLoop rest closeEmitted
  | .error m :: rest, closeEmitted =>
      (.error m, false) :: dispatchLoop rest closeEmitted
  | .close :: rest, closeEmitted =>
      if closeEmitted then dispatchLoop rest true
      else (.close, false) :: dispatchLoop rest true

/-- Number of Close notifications among a delivery list. -/
def closeCount (ds : List (Delivery × Bool)) : Nat :=
  ds.countP (fun d => d.1 = Delivery.close)

theorem closeCount_nil : closeCount [] = 0 := rfl

theorem closeCount_cons (d : Delivery × Bool) (ds : List (Delivery × Bool)) :
    closeCount (d :: ds) =
      closeCount ds + (if d.1 = Delivery.close then 1 else 0) := by
  simp [closeCount, List.countP_cons]

/-- Core close-accounting lemma: starting from flag `b`, the dispatcher
delivers one Close if the flag is still clear and none if it is already
set. -/
theorem closeCount_dispatchLoop (evs : List WsEvent) (b : Bool) :
    closeCount (dispatchLoop evs b) = if b then 0 else 1 := by
  induction evs generalizing b with
  | nil =>
      cases b <;> simp [dispatchLoop, closeCount, List.countP_cons]
  | cons e rest ih =>
      cases e with
      | text s => simpa [dispatchLoop, closeCount_cons] using ih b
      | binary p => simpa [dispatchLoop, closeCount_cons] using ih b
      | error m => simpa [dispatchLoop, closeCount_cons] using ih b
      | close =>
          cases b with
          | true => simpa [dispatchLoop] using ih true
          | false => simpa [dispatchLoop, closeCount_cons] using ih true

/-- C1: For every WebSocket connection, exactly one Close notification
(explicit or synthesized) is delivered to the consumer: whatever event
sequence the pump enqueues, the dispatcher (started with `close_emitted =
false`) delivers exactly one Close — the `closeEmitted` flag suppresses
every Close after the first, and if the queue ends with no Close observed
one Close is synthesized before terminating. -/
theorem dispatcher_delivers_exactly_one_close (evs : List WsEvent) :
    closeCount (dispatchLoop evs false) = 1 := by
  simpa using closeCount_dispatchLoop evs false

/-- `true` exactly for Close events. -/
def WsEvent.isClose : WsEvent → Bool
  | .close => true
  | _ => false

/-- The per-event consumer notification, with its credit flag, exactly as the
dispatcher branches of src/rust/src/lib.rs produce it. -/
def deliverEvent : WsEvent → Delivery × Bool
  | .text s => (.message (.text s), true)
  | .binary b => (.message (.binary b), true)
  | .error m => (.error m, false)
  | .close => (.close, false)

/-- The effective event sequence the dispatcher acts on: the queued events
with every Close after the first dropped, and a synthesized Close appended
when the queue ends with the close flag still clear. -/
def effEvents : List WsEvent → Bool → List WsEvent
  | [], closeEmitted => if closeEmitted then [] else [.close]
  | .close :: rest, closeEmitted =>
      if closeEmitted then effEvents rest true
      else .close :: effEvents rest true
  | .text s :: rest, closeEmitted => .text s :: effEvents rest closeEmitted
  | .binary b :: rest, closeEmitted => .binary b :: effEvents rest closeEmitted
  | .error m :: rest, closeEmitted => .error m :: effEvents rest closeEmitted

/-- The dispatcher output is the pointwise image of the effective event
sequence. -/
theorem dispatchLoop_eq_map_effEvents (evs : List WsEvent) (b : Bool) :
    dispatchLoop evs b = (effEvents evs b).map deliverEvent := by
  induction evs generalizing b with
  | nil => cases b <;> simp [dispatchLoop, effEvents, deliverEvent]
  | cons e rest ih =>
      cases e with
      | text s => simp [dispatchLoop, effEvents, deliverEvent, ih]
      | binary p => simp [dispatchLoop, effEvents, deliverEvent, ih]
      | error m => simp [dispatchLoop, effEvents, deliverEvent, ih]
      | close =>
          cases b <;> simp [dispatchLoop, effEvents, deliverEvent, ih]

/-- The effective event sequence is a subsequence of the arrival order
(extended by the possible terminal synthesized Close). -/
theorem effEvents_sublist (evs : List WsEvent) (b : Bool) :
    (effEvents evs b).Sublist (evs ++ [.close]) := by
  induction evs generalizing b with
  | nil =>
      cases b <;> simp [effEvents]
  | cons e rest ih =>
      cases e with
      | text s => simpa [effEvents] using (ih b).cons₂ (WsEvent.text s)
      | binary p => simpa [effEvents] using (ih b).cons₂ (WsEvent.binary p)
      | error m => simpa [effEvents] using (ih b).cons₂ (WsEvent.error m)
      | close =>
          cases b with
          | true => simpa [effEvents] using (ih true).cons WsEvent.close
          | false => simpa [effEvents] using (ih true).cons₂ WsEvent.close

/-- No non-Close event is dropped or displaced: the effective sequence
restricted to non-Close events is the arrival sequence restricted to
non-Close events. -/
theorem effEvents_filter_nonclose (evs : List WsEvent) (b : Bool) :
    (effEvents evs b).filter (fun e => !e.isClose) =
      evs.filter (fun e => !e.isClose) := by
  induction evs generalizing b with
  | nil => cases b <;> simp [effEvents, WsEvent.isClose]
  | cons e rest ih =>
      cases e with
      | text s =>
          simp only [effEvents, List.filter, WsEvent.isClose]
          exact congrArg _ (ih b)
      | binary p =>
          simp only [effEvents, List.filter, WsEvent.isClose]
          exact congrArg _ (ih b)
      | error m =>
          simp only [effEvents, List.filter, WsEvent.isClose]
          exact congrArg _ (ih b)
      | close =>
          cases b <;>
            simp only [effEvents, List.filter, WsEvent.isClose] <;>
            exact ih true

/-- C4: strict FIFO delivery. The dispatcher's delivery sequence is the
event-wise image of a subsequence of the pump's arrival order (the only
elisions being suppressed duplicate Closes, and the only addition the
terminal synthesized Close appended at the very end); every Text, Binary
and Error event is retained, in arrival order, so no two events are ever
reordered relative to each other. -/
theorem dispatcher_fifo_order (evs : List WsEvent) :
    dispatchLoop evs false = (effEvents evs false).map deliverEvent ∧
    (effEvents evs false).Sublist (evs ++ [.close]) ∧
    (effEvents evs false).filter (fun e => !e.isClose) =
      evs.filter (fun e => !e.isClose) :=
  ⟨dispatchLoop_eq_map_effEvents evs false, effEvents_sublist evs false,
    effEvents_filter_nonclose evs false⟩

/-! ### The Event Pump (src/rust/src/lib.rs lines 386-423) -/

/-- The subset of `wreq::ws::message::Message` the pump's match statement
distinguishes: Text, Binary, Close (payload ignored, matched `Close(_)`),
and the remaining control frames Ping/Pong (matched `Ok(_)`). -/
inductive Message
  | text (s : String)
  | binary (b : List Nat)
  | close
  | ping (b : List Nat)
  | pong (b : List Nat)
deriving DecidableEq, Repr

/-- One iteration of the pump's match on a frame-read result: the events it
sends into the queue and whether it breaks out of the read loop. A read
error is modelled as the already-formatted message string. -/
def pumpStep : Except String Message → List WsEvent × Bool
  | .ok (.text s) => ([.text s], false)
  | .ok (.binary b) => ([.binary b], false)
  | .ok .close => ([.close], true)
  | .ok (.ping _) => ([], false)
  | .ok (.pong _) => ([], false)
  | .error e => ([.error e, .close], true)

/-- The pump task: drains the frame stream, sending events per `pumpStep`,
and after leaving the loop (break or stream end) sends one final defensive
Close (line 422). Queue sends are modelled as succeeding (dispatcher
alive). -/
def pumpLoop : List (Except String Message) → List WsEvent
  | [] => [.close]
  | m :: rest =>
      match pumpStep m with
      | (evs, true) => evs ++ [.close]
      | (evs, false) => evs ++ pumpLoop rest

/-- C5: frame classification by the pump. A Text frame is enqueued as
Text(payload) and the loop continues; a Binary frame as Binary(payload); a
protocol Close frame causes Close to be enqueued and the loop to stop
(followed by the defensive post-loop Close that §4.4 of the spec allows);
a read error causes Error(message) followed by Close to be enqueued and
the loop to stop (again with the defensive trailing Close); Ping and Pong
control frames are consumed without any event being enqueued. -/
theorem pump_frame_classification (s e : String) (b p : List Nat)
    (rest : List (Except String Message)) :
    pumpLoop (.ok (.text s) :: rest) = .text s :: pumpLoop rest ∧
    pumpLoop (.ok (.binary b) :: rest) = .binary b :: pumpLoop rest ∧
    pumpLoop (.ok .close :: rest) = [.close, .close] ∧
    pumpLoop (.error e :: rest) = [.error e, .close, .close] ∧
    pumpLoop (.ok (.ping p) :: rest) = pumpLoop rest ∧
    pumpLoop (.ok (.pong p) :: rest) = pumpLoop rest := by
  refine ⟨?_, ?_, ?_, ?_, ?_, ?_⟩ <;> simp [pumpLoop, pumpStep]

/-! ### The credit pool (`permits_consumer : Semaphore`, lib.rs lines 431-467)

The dispatcher acquires an owned permit from a semaphore of size
`WS_EVENT_BUFFER` before handing a Text or Binary event to the consumer
context; the permit is moved into the callback closure and released when
that invocation returns. The Error and Close branches send their
notification without touching the semaphore. -/

/-- Joint state of the dispatcher and the in-flight credited callbacks:
the not-yet-dequeued event queue, the free permits of the semaphore, the
number of credited (Text/Binary) callbacks handed to the consumer context
whose invocation has not yet returned, and the `close_emitted` flag. -/
structure CreditState where
  queue : List WsEvent
  credits : Nat
  inFlight : Nat
  closeEmitted : Bool
deriving DecidableEq, Repr

/-- Interleaved small-step behaviour of the dispatcher task and the consumer
context. Dequeuing a Text or Binary event requires a free permit (the
`c + 1` pattern) and turns it into an in-flight credited callback; Error
and Close events are dequeued and handed over without acquiring a permit;
a callback return releases its permit back to the pool. -/
inductive CreditStep : CreditState → CreditState → Prop
  | text (s : String) (q : List WsEvent) (c f : Nat) (ce : Bool) :
      CreditStep ⟨.text s :: q, c + 1, f, ce⟩ ⟨q, c, f + 1, ce⟩
  | binary (b : List Nat) (q : List WsEvent) (c f : Nat) (ce : Bool) :
      CreditStep ⟨.binary b :: q, c + 1, f, ce⟩ ⟨q, c, f + 1, ce⟩
  | error (m : String) (q : List WsEvent) (c f : Nat) (ce : Bool) :
      CreditStep ⟨.error m :: q, c, f, ce⟩ ⟨q, c, f, ce⟩
  | close (q : List WsEvent) (c f : Nat) (ce : Bool) :
      CreditStep ⟨.close :: q, c, f, ce⟩ ⟨q, c, f, true⟩
  | callbackReturn (q : List WsEvent) (c f : Nat) (ce : Bool) :
      CreditStep ⟨q, c, f + 1, ce⟩ ⟨q, c + 1, f, ce⟩

/-- Initial state for a connection whose pump enqueues `evs`: all
`WS_EVENT_BUFFER` permits free, no callback in flight, close flag clear. -/
def initCreditState (evs : List WsEvent) : CreditState :=
  ⟨evs, WS_EVENT_BUFFER, 0, false⟩

/-- Each step preserves the sum of free permits and in-flight credited
callbacks. -/
theorem creditStep_sum {s t : CreditState} (h : CreditStep s t) :
    t.credits + t.inFlight = s.credits + s.inFlight := by
  cases h <;> simp <;> omega

/-- Semaphore invariant: in every reachable state the free permits and the
in-flight credited callbacks sum to the pool size. -/
theorem credit_sum_invariant (evs : List WsEvent) (s : CreditState)
    (h : Relation.ReflTransGen CreditStep (initCreditState evs) s) :
    s.credits + s.inFlight = WS_EVENT_BUFFER := by
  induction h with
  | refl => simp [initCreditState]
  | tail _ step ih => rw [creditStep_sum step, ih]

/-- The credit flag of every dispatcher delivery equals whether the delivery
is an onMessage invocation: Text/Binary deliveries hold a permit, Error and
Close deliveries do not. -/
theorem dispatchLoop_credit_flag (evs : List WsEvent) (b : Bool)
    (d : Delivery × Bool) (hd : d ∈ dispatchLoop evs b) :
    d.2 = d.1.isMessage := by
  induction evs generalizing b with
  | nil =>
      cases b <;> simp [dispatchLoop] at hd
      · simp [hd, Delivery.isMessage]
  | cons e rest ih =>
      cases e with
      | text s =>
          rcases (by simpa [dispatchLoop] using hd : _ ∨ _) with h | h
          · simp [h, Delivery.isMessage]
          · exact ih b h
      | binary p =>
          rcases (by simpa [dispatchLoop] using hd : _ ∨ _) with h | h
          · simp [h, Delivery.isMessage]
          · exact ih b h
      | error m =>
          rcases (by simpa [dispatchLoop] using hd : _ ∨ _) with h | h
          · simp [h, Delivery.isMessage]
          · exact ih b h
      | close =>
          cases b with
          | true => exact ih true (by simpa [dispatchLoop] using hd)
          | false =>
              rcases (by simpa [dispatchLoop] using hd : _ ∨ _) with h | h
              · simp [h, Delivery.isMessage]
              · exact ih true h

/-- C3 counterexample: it is not the case that every event the dispatcher
dequeues acquires a unit of the credit pool before being handed to the
consumer context — the Error (and Close) branches send their notification
without acquiring a permit, as witnessed on the concrete queue
`[Error "boom"]`. -/
theorem dispatcher_credit_claim_counterexample :
    ¬ (∀ d ∈ dispatchLoop [WsEvent.error "boom"] false, d.2 = true) := by
  decide

/-- C3 (amended): only Text and Binary events acquire a unit of the credit
pool (a semaphore of size `WS_EVENT_BUFFER` = 64, the event-queue
capacity) before being handed to the consumer context, holding it until
that callback invocation returns; Error and Close notifications are sent
without a credit. Consequently the number of credited (onMessage) callback
invocations in flight toward the consumer never exceeds 64 in any
reachable state. -/
theorem dispatcher_credit_discipline :
    (∀ (evs : List WsEvent) (b : Bool) (d : Delivery × Bool),
        d ∈ dispatchLoop evs b → d.2 = d.1.isMessage) ∧
    (∀ (evs : List WsEvent) (s : CreditState),
        Relation.ReflTransGen CreditStep (initCreditState evs) s →
        s.inFlight ≤ WS_EVENT_BUFFER) := by
  refine ⟨fun evs b d hd => dispatchLoop_credit_flag evs b d hd,
    fun evs s h => ?_⟩
  have hsum := credit_sum_invariant evs s h
  omega

/-- Witness for C3 (amended): the Error delivery of the concrete queue
`[Error "boom"]` carries no credit, and after the dispatcher dequeues one
Text event (one step from the initial state) the in-flight count is within
the pool size. -/
theorem dispatcher_credit_discipline_witness :
    ((Delivery.error "boom", false).2 = (Delivery.error "boom").isMessage) ∧
    (⟨[], 63, 1, false⟩ : CreditState).inFlight ≤ WS_EVENT_BUFFER :=
  ⟨dispatcher_credit_discipline.1 [WsEvent.error "boom"] false
      (Delivery.error "boom", false) (by decide),
    dispatcher_credit_discipline.2 [WsEvent.text "a"] ⟨[], 63, 1, false⟩
      (Relation.ReflTransGen.tail Relation.ReflTransGen.refl
        (CreditStep.text "a" [] 63 0 false))⟩

/-! ### Connection registry and handle allocator (src/rust/src/websocket.rs)

`WS_CONNECTIONS` is a mutex-guarded `HashMap<u64, Arc<WsConnection>>` and
`NEXT_WS_ID` a mutex-guarded `u64` starting at 1. Both mutexes serialize
concurrent callers, so every interleaving of registry operations is some
sequential execution of them; the model therefore quantifies over arbitrary
operation sequences. -/

/-- `WsConnection`: the shared, mutex-guarded outbound sender half of the
split socket, identified abstractly. -/
structure WsConnection where
  sender : Nat
deriving DecidableEq, Repr

/-- Modulus of the u64 counter `NEXT_WS_ID`. -/
def U64_MOD : Nat := 2 ^ 64

/-- HashMap::insert on an association list: an existing key keeps its entry
replaced in place, a fresh key is appended. -/
def insertConn (m : List (Nat × WsConnection)) (k : Nat) (v : WsConnection) :
    List (Nat × WsConnection) :=
  if (m.map Prod.fst).contains k then
    m.map (fun p => if p.1 = k then (k, v) else p)
  else m ++ [(k, v)]

/-- Global registry state: the `NEXT_WS_ID` counter (a u64, hence reduced
mod 2^64 on increment) and the `WS_CONNECTIONS` map. -/
structure WsState where
  nextId : Nat
  conns : List (Nat × WsConnection)
deriving DecidableEq, Repr

/-- Process-start state: `NEXT_WS_ID` is initialised to 1 and the map is
empty. -/
def initWsState : WsState := ⟨1, []⟩

/-- `store_connection`: takes the current counter value as the id,
increments the counter (u64 wrap-around), and inserts the connection. -/
def store_connection (c : WsConnection) (st : WsState) : Nat × WsState :=
  (st.nextId, ⟨(st.nextId + 1) % U64_MOD, insertConn st.conns st.nextId c⟩)

/-- `get_connection`: lookup by id, returning a shared clone. -/
def get_connection (st : WsState) (id : Nat) : Option WsConnection :=
  (st.conns.find? (fun p => p.1 == id)).map Prod.snd

/-- `remove_connection`: unconditionally deletes the id from the map. -/
def remove_connection (st : WsState) (id : Nat) : WsState :=
  ⟨st.nextId, st.conns.filter (fun p => p.1 != id)⟩

/-- A registry operation: a `store_connection` call (any interleaving of
concurrent callers is serialized by the mutexes into a sequence of these)
or a `remove_connection` call. -/
inductive RegOp
  | store (c : WsConnection)
  | remove (id : Nat)
deriving DecidableEq, Repr

/-- Apply one operation; a store returns the allocated handle. -/
def applyOp (st : WsState) : RegOp → WsState × List Nat
  | .store c =>
      let r := store_connection c st
      (r.2, [r.1])
  | .remove id => (remove_connection st id, [])

/-- Run a sequence of registry operations, collecting every handle returned
by the store calls, in order. -/
def runOps (st : WsState) : List RegOp → WsState × List Nat
  | [] => (st, [])
  | op :: rest =>
      let r := applyOp st op
      let r2 := runOps r.1 rest
      (r2.1, r.2 ++ r2.2)

/-- Number of store calls in an operation sequence. -/
def storeCount : List RegOp → Nat
  | [] => 0
  | .store _ :: rest => storeCount rest + 1
  | .remove _ :: rest => storeCount rest

theorem storeCount_zero_ids (st : WsState) (ops : List RegOp)
    (h : storeCount ops = 0) : (runOps st ops).2 = [] := by
  induction ops generalizing st with
  | nil => simp [runOps]
  | cons op rest ih =>
      cases op with
      | store c => simp [storeCount] at h
      | remove id =>
          simp [storeCount] at h
          simp [runOps, applyOp, ih _ h]

/-- As long as the u64 counter cannot wrap, a run of registry operations
returns exactly the consecutive handles starting at the current counter
value, independent of interleaved removals. -/
theorem runOps_ids (ops : List RegOp) (st : WsState)
    (h : st.nextId + storeCount ops ≤ U64_MOD) :
    (runOps st ops).2 = List.range' st.nextId (storeCount ops) := by
  induction ops generalizing st with
  | nil => simp [runOps, storeCount]
  | cons op rest ih =>
      cases op with
      | remove id =>
          simp [storeCount] at h
          simpa [runOps, applyOp, storeCount, remove_connection] using
            ih ⟨st.nextId, st.conns.filter (fun p => p.1 != id)⟩ h
      | store c =>
          simp [storeCount] at h
          by_cases hz : storeCount rest = 0
          · simp [runOps, applyOp, store_connection, storeCount, hz,
              storeCount_zero_ids, List.range'_succ]
          · have hlt : st.nextId + 1 < U64_MOD := by omega
            have := ih ⟨(st.nextId + 1) % U64_MOD, insertConn st.conns st.nextId c⟩
              (by simpa [Nat.mod_eq_of_lt hlt] using (by omega :
                st.nextId + 1 + storeCount rest ≤ U64_MOD))
            simp [runOps, applyOp, store_connection, storeCount,
              Nat.mod_eq_of_lt hlt] at this ⊢
            rw [this, List.range'_succ]

/-- C8: the handle allocator is strictly monotonic and never reuses ids.
For any sequence of store and remove operations from process start — the
registry mutexes serialize all interleavings of concurrent callers into
such a sequence — as long as the number of store calls stays below the u64
exhaustion point (the only point at which the counter wraps), every handle
returned by `store_connection` is strictly greater than every earlier one;
in particular the handles are pairwise distinct, so a handle is never
reused even after its entry is removed. -/
theorem store_connection_monotonic (ops : List RegOp)
    (h : storeCount ops ≤ U64_MOD - 1) :
    ((runOps initWsState ops).2).Pairwise (· < ·) ∧
    ((runOps initWsState ops).2).Nodup := by
  have hids : (runOps initWsState ops).2 =
      List.range' 1 (storeCount ops) := by
    apply runOps_ids
    have : (0 : Nat) < U64_MOD := by norm_num [U64_MOD]
    simp only [initWsState]
    omega
  rw [hids]
  constructor
  · exact List.pairwise_lt_range' 1 (storeCount ops)
  · exact (List.pairwise_lt_range' 1 (storeCount ops)).imp Nat.ne_of_lt

/-- Witness for C8: the run `store, remove 1, store, store` allocates the
handles 1, 2, 3 — strictly increasing and all distinct even though handle 1
was removed in between. -/
theorem store_connection_monotonic_witness :
    ((runOps initWsState
        [RegOp.store ⟨0⟩, RegOp.remove 1, RegOp.store ⟨1⟩, RegOp.store ⟨2⟩]).2
      ).Pairwise (· < ·) :=
  (store_connection_monotonic
    [RegOp.store ⟨0⟩, RegOp.remove 1, RegOp.store ⟨1⟩, RegOp.store ⟨2⟩]
    (by norm_num [storeCount, U64_MOD])).1

/-! ### Connecting (src/rust/src/websocket.rs `connect_websocket`,
src/rust/src/lib.rs `websocket_connect`) -/

/-- Emulation profile enum of the external wreq-util collaborator, identified
by its serialized name. -/
structure Emulation where
  name : String
deriving DecidableEq, Repr

/-- The source's fallback profile `Emulation::Chrome142`. -/
def Emulation.chrome142 : Emulation := ⟨"Chrome142"⟩

/-- `parse_emulation` (src/rust/src/lib.rs lines 27-32): deserialize the
browser string through serde — modelled as the abstract partial
deserializer of the collaborator enum — and fall back to Chrome142 whenever
deserialization fails. Total: every string yields a profile. -/
def parse_emulation (deserialize : String → Option Emulation)
    (browser : String) : Emulation :=
  (deserialize browser).getD Emulation.chrome142

/-- `WebSocketOptions` as populated by `websocket_connect` in
src/rust/src/lib.rs: url, emulation profile, parsed headers, optional
proxy. -/
structure WebSocketOptions where
  url : String
  emulation : Emulation
  headers : List (String × String)
  proxy : Option String
deriving DecidableEq, Repr

/-- The fallible stages of the external transport collaborator used by
`connect_websocket`, in source order: `wreq::Proxy::all`, client build,
sending the upgrade request, and the upgrade into a WebSocket; on success
the split produces a sender half. -/
structure TransportOracle where
  proxyBuild : String → Except String Unit
  clientBuild : Except String Unit
  upgradeSend : Except String Unit
  upgrade : Except String Unit
  senderId : Nat

/-- `connect_websocket` (src/rust/src/websocket.rs lines 105-145): proxy
configuration (only when a proxy is given), client construction, upgrade
request, upgrade — each aborting on error — then the connection wrapping
the sender half of the split socket. -/
def connect_websocket (o : TransportOracle) (opts : WebSocketOptions) :
    Except String WsConnection := do
  match opts.proxy with
  | some purl => o.proxyBuild purl
  | none => pure ()
  o.clientBuild
  o.upgradeSend
  o.upgrade
  pure ⟨o.senderId⟩

/-- The registry-visible part of `websocket_connect` (src/rust/src/lib.rs
lines 378-514): perform the handshake, and only on success allocate a
handle by `store_connection`; on error the promise is rejected and the
registry state is left untouched. -/
def websocketConnect (o : TransportOracle) (opts : WebSocketOptions)
    (st : WsState) : Except String Nat × WsState :=
  match connect_websocket o opts with
  | .error e => (.error e, st)
  | .ok c =>
      let r := store_connection c st
      (.ok r.1, r.2)

/-- C6: whenever the handshake fails — at proxy configuration, client
construction, the upgrade request, or the upgrade itself, the only
fallible stages of `connect_websocket` — `websocket_connect` reports that
error, allocates no handle and inserts nothing: the registry state
(counter and connection map alike) is returned unchanged. -/
theorem connect_failure_leaves_registry_unchanged (o : TransportOracle)
    (opts : WebSocketOptions) (st : WsState) (e : String)
    (h : connect_websocket o opts = .error e) :
    websocketConnect o opts st = (.error e, st) := by
  simp [websocketConnect, h]

/-- Witness for C6: a concrete oracle whose proxy stage fails; connecting
through a proxy yields that error and leaves the initial registry state
unchanged. -/
theorem connect_failure_leaves_registry_unchanged_witness :
    websocketConnect
      ⟨fun _ => .error "Failed to create proxy", .ok (), .ok (), .ok (), 0⟩
      ⟨"wss://example", Emulation.chrome142, [], some "bad://proxy"⟩
      initWsState =
      (.error "Failed to create proxy", initWsState) :=
  connect_failure_leaves_registry_unchanged
    ⟨fun _ => .error "Failed to create proxy", .ok (), .ok (), .ok (), 0⟩
    ⟨"wss://example", Emulation.chrome142, [], some "bad://proxy"⟩
    initWsState "Failed to create proxy" rfl

/-! ### send and close (src/rust/src/lib.rs `websocket_send`,
`websocket_close`) -/

/-- A call into the transport collaborator's send primitive on a
connection's mutex-guarded sender half. -/
inductive TransportAction
  | sendText (sender : Nat) (s : String)
  | sendBinary (sender : Nat) (b : List Nat)
  | sendClose (sender : Nat)
deriving DecidableEq, Repr

/-- `websocket_send`: look the handle up in the registry; a stale handle is
rejected with the not-found error before any transport operation; a
present handle forwards the payload to the transport send primitive
(`send_text`/`send_binary`). -/
def websocketSend (st : WsState) (id : Nat) (d : SendData) :
    Except String TransportAction :=
  match get_connection st id with
  | none => .error "WebSocket connection not found"
  | some c =>
      match d with
      | .text s => .ok (.sendText c.sender s)
      | .binary b => .ok (.sendBinary c.sender b)

/-- `websocket_close`: look the handle up; a stale handle is rejected with
the not-found error and the registry is untouched; a present handle sends
a close frame through the transport and then unconditionally removes the
handle from the registry. -/
def websocketClose (st : WsState) (id : Nat) :
    Except String TransportAction × WsState :=
  match get_connection st id with
  | none => (.error "WebSocket connection not found", st)
  | some c => (.ok (.sendClose c.sender), remove_connection st id)

/-- C7: for a handle absent from the registry, both send and close fail
with the not-found error and no transport operation is produced (close
also leaves the registry untouched); for a present handle both proceed to
the transport send primitive of that connection's sender. -/
theorem stale_handle_send_close (st : WsState) (id : Nat) (d : SendData) :
    (get_connection st id = none →
      websocketSend st id d = .error "WebSocket connection not found" ∧
      websocketClose st id = (.error "WebSocket connection not found", st)) ∧
    (∀ c, get_connection st id = some c →
      websocketSend st id d =
        .ok (match d with
          | .text s => .sendText c.sender s
          | .binary b => .sendBinary c.sender b) ∧
      (websocketClose st id).1 = .ok (.sendClose c.sender)) := by
  constructor
  · intro h
    cases d <;> simp [websocketSend, websocketClose, h]
  · intro c h
    cases d <;> simp [websocketSend, websocketClose, h]

/-- Witness for C7: on the empty registry, handle 7 is stale and both
operations fail with the not-found error; after storing a connection,
handle 1 is present and send produces the transport text-send. -/
theorem stale_handle_send_close_witness :
    (websocketSend initWsState 7 (.text "hi") =
        .error "WebSocket connection not found" ∧
      websocketClose initWsState 7 =
        (.error "WebSocket connection not found", initWsState)) ∧
    (websocketSend (store_connection ⟨5⟩ initWsState).2 1 (.text "hi") =
        .ok (.sendText 5 "hi") ∧
      (websocketClose (store_connection ⟨5⟩ initWsState).2 1).1 =
        .ok (.sendClose 5)) :=
  ⟨(stale_handle_send_close initWsState 7 (.text "hi")).1 (by decide),
    (stale_handle_send_close (store_connection ⟨5⟩ initWsState).2 1
      (.text "hi")).2 ⟨5⟩ (by decide)⟩

/-! ### Connection teardown (src/rust/src/lib.rs lines 498-511 and 611-616) -/

/-- The dispatcher task of a connection as a whole: drain the queue through
`dispatchLoop`, then — after the loop, on every path — call
`remove_connection(id)` on the registry. -/
def dispatcherRun (evs : List WsEvent) (st : WsState) (id : Nat) :
    List (Delivery × Bool) × WsState :=
  (dispatchLoop evs false, remove_connection st id)

/-- Removing a handle makes subsequent lookups fail. -/
theorem get_connection_remove (st : WsState) (id : Nat) :
    get_connection (remove_connection st id) id = none := by
  have h : List.find? (fun p => p.1 == id)
      (List.filter (fun p => p.1 != id) st.conns) = none := by
    rw [List.find?_eq_none]
    intro p hp
    have h2 := (List.mem_filter.mp hp).2
    simpa using h2
  simp [get_connection, remove_connection, h]

/-- C9 counterexample: the dispatcher is not the sole removal point. On the
registry holding the single stored connection (handle 1), `websocket_close`
— a non-dispatcher operation — removes the entry: the handle is present
before the call and absent from the returned registry state. -/
theorem close_also_removes_counterexample :
    get_connection (store_connection ⟨0⟩ initWsState).2 1 = some ⟨0⟩ ∧
    (websocketClose (store_connection ⟨0⟩ initWsState).2 1).2 ≠
      (store_connection ⟨0⟩ initWsState).2 ∧
    get_connection
      ((websocketClose (store_connection ⟨0⟩ initWsState).2 1).2) 1 = none := by
  decide

/-- C9 (amended): the dispatcher, after delivering the terminal Close
(exactly one Close is delivered on every queue), unconditionally removes
the connection's handle from the registry; it is however not the sole
removal point — `websocket_close` likewise removes the handle (after
sending the close frame) whenever it finds it, and these are the only two
operations that remove connection entries (`websocket_send` and
`websocket_connect` never remove one). -/
theorem dispatcher_and_close_teardown :
    (∀ (evs : List WsEvent) (st : WsState) (id : Nat),
        closeCount (dispatcherRun evs st id).1 = 1 ∧
        get_connection (dispatcherRun evs st id).2 id = none) ∧
    (∀ (st : WsState) (id : Nat),
        get_connection (websocketClose st id).2 id = none) := by
  constructor
  · intro evs st id
    refine ⟨by simpa [dispatcherRun] using closeCount_dispatchLoop evs false, ?_⟩
    simpa [dispatcherRun] using get_connection_remove st id
  · intro st id
    cases h : get_connection st id with
    | none => simp [websocketClose, h]
    | some c => simpa [websocketClose, h] using get_connection_remove st id

/-! ### Profile parsing (src/rust/src/lib.rs `parse_emulation`) -/

/-- C10: `parse_emulation` is total — it returns a profile for every input
string and never errors. A string the collaborator's deserializer
recognises yields exactly that profile; any unrecognised string silently
yields the `Chrome142` default. Hence no caller of `parse_emulation`
(request, createSession, connect) can fail because of an invalid profile
name. -/
theorem parse_emulation_total (des : String → Option Emulation) (s : String) :
    (∀ e, des s = some e → parse_emulation des s = e) ∧
    (des s = none → parse_emulation des s = Emulation.chrome142) := by
  constructor
  · intro e h
    simp [parse_emulation, h]
  · intro h
    simp [parse_emulation, h]

/-- Witness for C10: under a deserializer recognising only `Firefox135`,
that name parses to Firefox135 and an unknown name falls back to
Chrome142. -/
theorem parse_emulation_total_witness :
    parse_emulation
        (fun s => if s = "Firefox135" then some ⟨"Firefox135"⟩ else none)
        "Firefox135" = ⟨"Firefox135"⟩ ∧
    parse_emulation
        (fun s => if s = "Firefox135" then some ⟨"Firefox135"⟩ else none)
        "not_a_browser" = Emulation.chrome142 :=
  ⟨(parse_emulation_total
        (fun s => if s = "Firefox135" then some ⟨"Firefox135"⟩ else none)
        "Firefox135").1 ⟨"Firefox135"⟩ (by decide),
    (parse_emulation_total
        (fun s => if s = "Firefox135" then some ⟨"Firefox135"⟩ else none)
        "not_a_browser").2 (by decide)⟩

/-! ### Header parsing (src/rust/src/lib.rs `parse_headers_from_array`)

The source folds the caller's ordered name/value pairs into an
`IndexMap<String, String>` with `headers.insert(name, value)`: a fresh name
is appended at the end, a duplicate name keeps its original position but has
its value replaced. -/

/-- `IndexMap::insert` on an association list: an existing key stays at its
place in the order with its value updated; a new key is appended. -/
def indexmap_insert (m : List (String × String)) (k v : String) :
    List (String × String) :=
  if k ∈ m.map Prod.fst then
    m.map (fun p => if p.1 = k then (k, v) else p)
  else m ++ [(k, v)]

/-- `parse_headers_from_array`: left-to-right fold of the caller's pairs
into an initially empty IndexMap. -/
def parse_headers_from_array (pairs : List (String × String)) :
    List (String × String) :=
  pairs.foldl (fun m p => indexmap_insert m p.1 p.2) []

/-- First-occurrence deduplication of a key sequence. -/
def firstDedup : List String → List String
  | [] => []
  | k :: ks => k :: (firstDedup ks).filter (fun x => x ≠ k)

/-- The last value the caller supplied for a name, if any. -/
def lastVal (ps : List (String × String)) (k : String) : Option String :=
  (ps.reverse.find? (fun p => p.1 == k)).map Prod.snd

/-- Key sequence of the IndexMap produced by inserting a key sequence into
a map whose keys are `m`. -/
def specKeys (m : List String) : List String → List String
  | [] => m
  | k :: ks => if k ∈ m then specKeys m ks else specKeys (m ++ [k]) ks

theorem keys_indexmap_insert_mem (m : List (String × String)) (k v : String)
    (hk : k ∈ m.map Prod.fst) :
    (indexmap_insert m k v).map Prod.fst = m.map Prod.fst := by
  simp only [indexmap_insert, if_pos hk, List.map_map]
  apply List.map_congr_left
  intro p _
  by_cases h : p.1 = k <;> simp [h]

theorem keys_indexmap_insert_fresh (m : List (String × String)) (k v : String)
    (hk : k ∉ m.map Prod.fst) :
    (indexmap_insert m k v).map Prod.fst = m.map Prod.fst ++ [k] := by
  simp [indexmap_insert, if_neg hk]

/-- The fold's key sequence is computed by `specKeys` on the key
sequences. -/
theorem keys_foldl_insert (ps : List (String × String))
    (m : List (String × String)) :
    ((ps.foldl (fun m p => indexmap_insert m p.1 p.2) m).map Prod.fst) =
      specKeys (m.map Prod.fst) (ps.map Prod.fst) := by
  induction ps generalizing m with
  | nil => simp [specKeys]
  | cons p rest ih =>
      by_cases hk : p.1 ∈ m.map Prod.fst
      · rw [List.foldl_cons, ih (indexmap_insert m p.1 p.2),
          keys_indexmap_insert_mem m p.1 p.2 hk]
        simp [specKeys, hk]
      · rw [List.foldl_cons, ih (indexmap_insert m p.1 p.2),
          keys_indexmap_insert_fresh m p.1 p.2 hk]
        simp [specKeys, hk]

theorem filter_not_mem_filter_ne (m : List String) (k : String) (hk : k ∈ m)
    (L : List String) :
    L.filter (fun a => !decide (a ∈ m) && !decide (a = k)) =
      L.filter (fun x => !decide (x ∈ m)) := by
  apply List.filter_congr
  intro a _
  by_cases ham : a ∈ m
  · simp [ham]
  · have hne : a ≠ k := fun h => ham (h ▸ hk)
    simp [ham, hne]

theorem filter_not_mem_append_singleton (m : List String) (k : String)
    (L : List String) :
    L.filter (fun x => x ∉ m ++ [k]) =
      (L.filter (fun x => x ≠ k)).filter (fun x => x ∉ m) := by
  induction L with
  | nil => rfl
  | cons a t ih =>
      by_cases hak : a = k
      · subst hak
        simp [List.filter_cons, ih, List.mem_append]
      · by_cases ham : a ∈ m <;>
          simp [List.filter_cons, hak, ham, ih, List.mem_append]

/-- `specKeys` appends exactly the not-yet-present keys, in first-occurrence
order. -/
theorem specKeys_eq_firstDedup (l : List String) (m : List String) :
    specKeys m l = m ++ (firstDedup l).filter (fun x => x ∉ m) := by
  induction l generalizing m with
  | nil => simp [specKeys, firstDedup]
  | cons k ks ih =>
      by_cases hk : k ∈ m
      · have h1 : specKeys m (k :: ks) = specKeys m ks := by
          simp [specKeys, hk]
        rw [h1, ih m, firstDedup]
        congr 1
        simp [List.filter_cons, hk]
        exact (filter_not_mem_filter_ne m k hk (firstDedup ks)).symm
      · have h1 : specKeys m (k :: ks) = specKeys (m ++ [k]) ks := by
          simp [specKeys, hk]
        rw [h1, ih (m ++ [k]), firstDedup, List.append_assoc]
        congr 1
        have h2 := filter_not_mem_append_singleton m k (firstDedup ks)
        simp [List.filter_cons, hk, h2]

theorem firstDedup_nodup (l : List String) : (firstDedup l).Nodup := by
  induction l with
  | nil => simp [firstDedup]
  | cons k ks ih =>
      simp only [firstDedup, List.nodup_cons]
      refine ⟨fun hmem => ?_, ih.filter _⟩
      have := (List.mem_filter.mp hmem).2
      simp at this

theorem lastVal_cons (k' v' k : String) (rest : List (String × String)) :
    lastVal ((k', v') :: rest) k =
      match lastVal rest k with
      | some v => some v
      | none => if k' = k then some v' else none := by
  simp only [lastVal, List.reverse_cons, List.find?_append]
  cases h : (rest.reverse.find? (fun p => p.1 == k)) with
  | none =>
      by_cases hk : k' = k
      · subst hk
        simp [Option.orElse, h, List.find?]
      · have hbeq : (k' == k) = false := beq_eq_false_iff_ne.mpr hk
        simp [Option.orElse, h, List.find?, hbeq, hk]
  | some p => simp [Option.orElse, h]

/-- Every binding of the fold result carries the last value supplied for its
key among the processed pairs, unless the key was never supplied and the
binding was already in the accumulator. -/
theorem mem_foldl_insert_lastVal (ps : List (String × String))
    (m : List (String × String)) (k v : String)
    (h : (k, v) ∈ ps.foldl (fun m p => indexmap_insert m p.1 p.2) m) :
    lastVal ps k = some v ∨ (lastVal ps k = none ∧ (k, v) ∈ m) := by
  induction ps generalizing m with
  | nil =>
      right
      exact ⟨rfl, by simpa using h⟩
  | cons p rest ih =>
      rw [List.foldl_cons] at h
      rcases ih (indexmap_insert m p.1 p.2) h with hlast | ⟨hnone, hmem⟩
      · left
        rw [lastVal_cons, hlast]
      · rw [lastVal_cons, hnone]
        by_cases hk : p.1 ∈ m.map Prod.fst
        · rw [indexmap_insert, if_pos hk, List.mem_map] at hmem
          rcases hmem with ⟨q, hq, hrepl⟩
          by_cases hq1 : q.1 = p.1
          · rw [if_pos hq1] at hrepl
            have hk1 : p.1 = k := congrArg Prod.fst hrepl
            have hv1 : p.2 = v := congrArg Prod.snd hrepl
            left
            simp [hk1, hv1]
          · rw [if_neg hq1] at hrepl
            right
            have hkq : k = q.1 := (congrArg Prod.fst hrepl).symm
            have hne : p.1 ≠ k := fun hc => hq1 (by rw [hkq] at hc; exact hc.symm)
            exact ⟨by simp [if_neg hne], hrepl ▸ hq⟩
        · rw [indexmap_insert, if_neg hk, List.mem_append] at hmem
          rcases hmem with hmem | hmem
          · right
            have hkm : k ∈ m.map Prod.fst :=
              List.mem_map.mpr ⟨(k, v), hmem, rfl⟩
            have hne : p.1 ≠ k := fun hc => hk (hc ▸ hkm)
            exact ⟨by simp [if_neg hne], hmem⟩
          · left
            have heq : (k, v) = (p.1, p.2) := List.mem_singleton.mp hmem
            have hk1 : p.1 = k := (congrArg Prod.fst heq).symm
            have hv1 : p.2 = v := (congrArg Prod.snd heq).symm
            simp [hk1, hv1]

/-- C2 counterexample: duplicate header names are not retained as separate
entries. For the caller's array `[("a","1"), ("a","2")]` the parsed
collection is the single entry `("a","2")` — the duplicate has been
collapsed into a single-valued map — rather than a two-entry collection. -/
theorem parse_headers_duplicates_counterexample :
    parse_headers_from_array [("a", "1"), ("a", "2")] = [("a", "2")] ∧
    (parse_headers_from_array [("a", "1"), ("a", "2")]).length ≠ 2 := by
  decide

/-- C2 (amended): the parsed header collection lists the distinct names in
the order of their first occurrence in the caller's array (so the ordering
of names is preserved), but duplicate names are collapsed into one entry —
the collection's keys are duplicate-free, and each entry carries the last
value the caller supplied for that name. -/
theorem parse_headers_order_and_collapse (ps : List (String × String)) :
    (parse_headers_from_array ps).map Prod.fst =
      firstDedup (ps.map Prod.fst) ∧
    ((parse_headers_from_array ps).map Prod.fst).Nodup ∧
    ∀ k v, (k, v) ∈ parse_headers_from_array ps → lastVal ps k = some v := by
  have hkeys : (parse_headers_from_array ps).map Prod.fst =
      firstDedup (ps.map Prod.fst) := by
    rw [parse_headers_from_array, keys_foldl_insert, List.map_nil,
      specKeys_eq_firstDedup]
    simp
  refine ⟨hkeys, hkeys ▸ firstDedup_nodup _, fun k v hmem => ?_⟩
  rcases mem_foldl_insert_lastVal ps [] k v hmem with h | ⟨_, h⟩
  · exact h
  · simp at h

/-- Witness for C2 (amended): for the array
`[("a","1"), ("b","2"), ("a","3")]`, the entry found for `"a"` carries the
last supplied value `"3"`. -/
theorem parse_headers_order_and_collapse_witness :
    lastVal [("a", "1"), ("b", "2"), ("a", "3")] "a" = some "3" :=
  (parse_headers_order_and_collapse [("a", "1"), ("b", "2"), ("a", "3")]).2.2
    "a" "3" (by decide)

end WreqJs
